import Mathlib

/-!
Shallow embedding of the terminal-renderer core of `todo-cli-rs`
(`src/screen_buf.rs` and `src/ui.rs`): the cell grid (`Buffer`), the
double-buffered `VirtualScreen`, the patch emitter `apply_patches`
(modelled as producing a list of terminal commands), and the
immediate-mode layout engine (`Vec2`, `Layout`, `Ui`).

Machine integers: Rust `usize` is modelled as `Nat` (the code never
underflows the indices the claims touch), `i32` as `Int`, and the
`as usize` / `as u16` casts are modelled explicitly where they occur.
Rust panics (`assert!`, `expect`) are modelled by `Option`-returning
operations: `none` is the aborted call.
-/

/-- The closed color enumeration (crossterm `Color`, restricted to the
variants this program constructs). -/
inductive Color where
  | white
  | black
  | cyan
  | red
  | green
  | blue
  | yellow
  | magenta
deriving DecidableEq, Repr

/-- One screen cell: glyph, foreground, background (`Cell` in `screen_buf.rs`). -/
structure Cell where
  ch : Char
  fg : Color
  bg : Color
deriving DecidableEq, Repr

/-- `Cell::default()`: space on white-over-black. -/
def Cell.default : Cell := { ch := ' ', fg := Color.white, bg := Color.black }

/-- A changed-cell instruction (`Patch` in `screen_buf.rs`). -/
structure Patch where
  cell : Cell
  x : Nat
  y : Nat
deriving DecidableEq, Repr

/-- The cell grid (`Buffer` in `screen_buf.rs`): flat row-major cell
vector plus dimensions. -/
structure Buffer where
  cells : List Cell
  width : Nat
  height : Nat
deriving DecidableEq, Repr

/-- The representation invariant `Buffer::new`/`resize` establish:
the flat vector holds exactly `width * height` cells. -/
def Buffer.wf (b : Buffer) : Prop := b.cells.length = b.width * b.height

instance (b : Buffer) : Decidable b.wf := by
  unfold Buffer.wf; infer_instance

/-- `Buffer::new(width, height)`. -/
def Buffer.new (width height : Nat) : Buffer :=
  { cells := List.replicate (width * height) Cell.default
    width := width
    height := height }

/-- `Buffer::resize(width, height)`: reallocate and reset every cell to default. -/
def Buffer.resize (_b : Buffer) (width height : Nat) : Buffer :=
  { cells := List.replicate (width * height) Cell.default
    width := width
    height := height }

/-- `Buffer::clear()`. -/
def Buffer.clear (b : Buffer) : Buffer :=
  { b with cells := List.replicate b.cells.length Cell.default }

/-- `Buffer::put_cell(x, y, ch, fg, bg)`: `cells.get_mut(y * width + x)`
is `some` exactly when the flat index is below the vector length, and
`List.set` is the corresponding in-place write (a no-op out of range). -/
def Buffer.put_cell (b : Buffer) (x y : Nat) (ch : Char) (fg bg : Color) : Buffer :=
  { b with cells := b.cells.set (y * b.width + x) { ch := ch, fg := fg, bg := bg } }

/-- The loop body of `Buffer::put_cells`: write characters at
consecutive flat indices, stopping (`break`) at the first index past
the end of the vector. -/
def putCellsGo (fg bg : Color) : List Cell → Nat → List Char → List Cell
  | cells, _, [] => cells
  | cells, i, ch :: rest =>
    if i < cells.length then
      putCellsGo fg bg (cells.set i { ch := ch, fg := fg, bg := bg }) (i + 1) rest
    else
      cells

/-- `Buffer::put_cells(x, y, chs, fg, bg)`: starts at flat index
`y * width + x` and writes one cell per character. -/
def Buffer.put_cells (b : Buffer) (x y : Nat) (chs : List Char) (fg bg : Color) : Buffer :=
  { b with cells := putCellsGo fg bg b.cells (y * b.width + x) chs }

/-- `Buffer::diff(other)`: zip the two flat vectors, keep the indices
whose cells differ, and rebuild `(x, y)` from the flat index. The
patch's cell is the `other` (target) cell. The Rust `assert!` on equal
dimensions is a precondition carried by the theorems. -/
def Buffer.diff (self other : Buffer) : List Patch :=
  (((self.cells.zip other.cells).enum).filter (fun p => p.2.1 ≠ p.2.2)).map
    (fun p => { cell := p.2.2, x := p.1 % self.width, y := p.1 / self.width })

/-- The double buffer (`VirtualScreen` in `screen_buf.rs`). -/
structure VirtualScreen where
  buf_curr : Buffer
  buf_prev : Buffer
deriving DecidableEq, Repr

/-- `VirtualScreen::new(w, h)`. -/
def VirtualScreen.new (w h : Nat) : VirtualScreen :=
  { buf_curr := Buffer.new w h, buf_prev := Buffer.new w h }

/-- `VirtualScreen::resize`. -/
def VirtualScreen.resize (s : VirtualScreen) (width height : Nat) : VirtualScreen :=
  { buf_curr := s.buf_curr.resize width height
    buf_prev := s.buf_prev.resize width height }

/-- `VirtualScreen::diff()`: `buf_prev.diff(&buf_curr)`. -/
def VirtualScreen.diff (s : VirtualScreen) : List Patch :=
  s.buf_prev.diff s.buf_curr

/-- `VirtualScreen::put_cell`: writes the current grid only. -/
def VirtualScreen.put_cell (s : VirtualScreen) (x y : Nat) (ch : Char) (fg bg : Color) :
    VirtualScreen :=
  { s with buf_curr := s.buf_curr.put_cell x y ch fg bg }

/-- `VirtualScreen::put_cells`: writes the current grid only. -/
def VirtualScreen.put_cells (s : VirtualScreen) (x y : Nat) (chs : List Char) (fg bg : Color) :
    VirtualScreen :=
  { s with buf_curr := s.buf_curr.put_cells x y chs fg bg }

/-- `VirtualScreen::swap()`: `mem::swap` of the two grids. -/
def VirtualScreen.swap (s : VirtualScreen) : VirtualScreen :=
  { buf_curr := s.buf_prev, buf_prev := s.buf_curr }

/-- One queued terminal command, as issued by `apply_patches`. -/
inductive Command where
  | setForeground (c : Color)
  | setBackground (c : Color)
  | moveTo (x y : Nat)
  | print (ch : Char)
deriving DecidableEq, Repr

/-- The loop of `apply_patches`: `fgCurr`/`bgCurr` cache the last
emitted colors, `(xPrev, yPrev)` track the previously emitted patch
(initialised to `(0, 0)` by the caller). A `MoveTo` is issued unless
`y_prev == y && x_prev + 1 == x`; after the patch the trackers equal
the patch's coordinates and colors either way. `MoveTo` takes `u16`
arguments, hence the `% 65536` on the coordinates. -/
def applyPatchesGo (fgCurr bgCurr : Color) (xPrev yPrev : Nat) : List Patch → List Command
  | [] => []
  | p :: rest =>
    (if yPrev = p.y ∧ xPrev + 1 = p.x then [] else [Command.moveTo (p.x % 65536) (p.y % 65536)])
      ++ (if fgCurr = p.cell.fg then [] else [Command.setForeground p.cell.fg])
      ++ (if bgCurr = p.cell.bg then [] else [Command.setBackground p.cell.bg])
      ++ [Command.print p.cell.ch]
      ++ applyPatchesGo p.cell.fg p.cell.bg p.x p.y rest

/-- `apply_patches(qc, patches)` as the list of commands it queues:
unconditional initial color sets, then the elision loop started with
`fg = White`, `bg = Black`, `x_prev = 0`, `y_prev = 0`. -/
def apply_patches (patches : List Patch) : List Command :=
  Command.setForeground Color.white :: Command.setBackground Color.black ::
    applyPatchesGo Color.white Color.black 0 0 patches

/-- 2D integer vector (`Vec2` in `ui.rs`, fields `i32`). -/
structure Vec2 where
  x : Int
  y : Int
deriving DecidableEq, Repr

/-- Componentwise `Add for Vec2`. -/
def Vec2.add (a b : Vec2) : Vec2 := { x := a.x + b.x, y := a.y + b.y }

/-- Componentwise `Mul for Vec2`. -/
def Vec2.mul (a b : Vec2) : Vec2 := { x := a.x * b.x, y := a.y * b.y }

/-- `Vec2::new`. -/
def Vec2.new (x y : Int) : Vec2 := { x := x, y := y }

/-- `Vec2::null()`. -/
def Vec2.null : Vec2 := { x := 0, y := 0 }

/-- Layout orientation (`LayoutKind` in `ui.rs`). -/
inductive LayoutKind where
  | vert
  | horz
deriving DecidableEq, Repr

/-- One layout stack frame (`Layout` in `ui.rs`). -/
structure Layout where
  kind : LayoutKind
  pos : Vec2
  size : Vec2
deriving DecidableEq, Repr

/-- `Layout::available_pos()`: `pos + size * (1,0)` for Horz,
`pos + size * (0,1)` for Vert. -/
def Layout.available_pos (l : Layout) : Vec2 :=
  match l.kind with
  | LayoutKind.horz => l.pos.add (l.size.mul (Vec2.new 1 0))
  | LayoutKind.vert => l.pos.add (l.size.mul (Vec2.new 0 1))

/-- `Layout::add_widget(size)`: Horz sums widths and maxes heights,
Vert maxes widths and sums heights. -/
def Layout.add_widget (l : Layout) (size : Vec2) : Layout :=
  match l.kind with
  | LayoutKind.horz =>
    { l with size := { x := l.size.x + size.x, y := max l.size.y size.y } }
  | LayoutKind.vert =>
    { l with size := { x := max l.size.x size.x, y := l.size.y + size.y } }

/-- Rust `x as usize` applied to an `i32` value: sign-extend to 64 bits
and reinterpret, i.e. reduce modulo `2^64`. -/
def usizeOfI32 (x : Int) : Nat := (x % (2 : Int) ^ 64).toNat

/-- Rust `str::len()`: the UTF-8 byte length, the sum of each
character's encoded size. -/
def utf8Len (text : List Char) : Nat := (text.map Char.utf8Size).sum

/-- The immediate-mode UI session (`Ui` in `ui.rs`): the layout stack
(head of the list is the top, Rust `Vec`'s `last`) plus the screen. -/
structure Ui where
  layouts : List Layout
  screen : VirtualScreen
deriving DecidableEq, Repr

/-- `Ui::begin(pos, kind)`: `assert!(layouts.is_empty())`, then push the
root frame with zero accumulated size. `none` models the failed assert. -/
def Ui.begin (ui : Ui) (pos : Vec2) (kind : LayoutKind) : Option Ui :=
  if ui.layouts.isEmpty then
    some { ui with layouts := [{ kind := kind, pos := pos, size := Vec2.null }] }
  else
    none

/-- `Ui::begin_layout(kind)`: anchor the child at the top frame's
`available_pos`; `none` models the `expect` failure on an empty stack. -/
def Ui.begin_layout (ui : Ui) (kind : LayoutKind) : Option Ui :=
  match ui.layouts with
  | [] => none
  | top :: rest =>
    some { ui with
      layouts := { kind := kind, pos := top.available_pos, size := Vec2.null } :: top :: rest }

/-- `Ui::end_layout()`: pop the top frame and fold its size into the new
top via `add_widget`; both `expect`s (empty stack, or no parent left
after the pop) are modelled as `none`. -/
def Ui.end_layout (ui : Ui) : Option Ui :=
  match ui.layouts with
  | [] => none
  | [_] => none
  | child :: parent :: rest =>
    some { ui with layouts := parent.add_widget child.size :: rest }

/-- `Ui::label_fixed_width(text, width, fg, bg)`: write `text` at the
top frame's `available_pos`, write `|size.x - width - 4|` blank cells
(same colors) starting at column `pos.x + width`, grow the frame by
`Vec2(width, 1)`, and return `pos`. `none` models the `expect` failure
when no layout is open. -/
def Ui.label_fixed_width (ui : Ui) (text : List Char) (width : Int) (fg bg : Color) :
    Option (Ui × Vec2) :=
  match ui.layouts with
  | [] => none
  | top :: rest =>
    let pos := top.available_pos
    let screen1 := ui.screen.put_cells (usizeOfI32 pos.x) (usizeOfI32 pos.y) text fg bg
    let fill := List.replicate (top.size.x - width - 4).natAbs ' '
    let screen2 :=
      screen1.put_cells (usizeOfI32 (pos.x + width)) (usizeOfI32 pos.y) fill fg bg
    some ({ layouts := top.add_widget (Vec2.new width 1) :: rest, screen := screen2 }, pos)

/-- `Ui::label(text, fg, bg)`: `label_fixed_width` with
`width = text.len() as i32`, the UTF-8 byte length of `text`. -/
def Ui.label (ui : Ui) (text : List Char) (fg bg : Color) : Option Ui :=
  (ui.label_fixed_width text (utf8Len text : Nat) fg bg).map (fun p => p.1)

/-- `Ui::end()` (named `endRoot` here because `end` is a Lean keyword):
pop the root frame (`none` models the `expect` failure on an empty
stack), emit `apply_patches` over the screen's diff, and swap the
buffers. Returns the new session and the emitted command list. -/
def Ui.endRoot (ui : Ui) : Option (Ui × List Command) :=
  match ui.layouts with
  | [] => none
  | _ :: rest =>
    some ({ layouts := rest, screen := ui.screen.swap }, apply_patches ui.screen.diff)

/-- Row-major (scan) order on patches: earlier row, or same row and
earlier column. This is the order the patch emitter relies on. -/
def rowMajorLt (p q : Patch) : Prop :=
  p.y < q.y ∨ (p.y = q.y ∧ p.x < q.x)

/-- Reference recursion for `Buffer.diff`: walk the two flat vectors in
step, at flat index `n`, keeping the target cell wherever the two
differ. Used only to reason about `Buffer.diff`. -/
def diffIdx (w : Nat) : Nat → List Cell → List Cell → List Patch
  | _, [], _ => []
  | _, _ :: _, [] => []
  | n, a :: as, b :: bs =>
    if a ≠ b then Patch.mk b (n % w) (n / w) :: diffIdx w (n + 1) as bs
    else diffIdx w (n + 1) as bs

/-- C4: for an open layout frame, `available_pos` is the anchor plus the
accumulated size projected along the flow axis (Vertical: below at the
same x; Horizontal: to the right at the same y), and `add_widget s`
grows a Vertical frame's size to `(max width s.x, height + s.y)` and a
Horizontal frame's size to `(width + s.x, max height s.y)`. -/
theorem layout_flow_and_sizing (p s w : Vec2) :
    (Layout.mk LayoutKind.vert p s).available_pos = Vec2.new p.x (p.y + s.y)
  ∧ (Layout.mk LayoutKind.horz p s).available_pos = Vec2.new (p.x + s.x) p.y
  ∧ (Layout.mk LayoutKind.vert p s).add_widget w
      = Layout.mk LayoutKind.vert p (Vec2.new (max s.x w.x) (s.y + w.y))
  ∧ (Layout.mk LayoutKind.horz p s).add_widget w
      = Layout.mk LayoutKind.horz p (Vec2.new (s.x + w.x) (max s.y w.y)) := by
  refine ⟨?_, ?_, ?_, ?_⟩ <;>
    simp [Layout.available_pos, Layout.add_widget, Vec2.add, Vec2.mul, Vec2.new]

/-- C9: the layout-discipline contract checks fail fast: `end()` with no
open session, `begin()` while a session is open, and `end_layout()`
without a matching `begin_layout()` (an empty stack, or only the root
frame) all abort (`none`), producing no successor state — so the failed
call cannot corrupt the stack. -/
theorem layout_contract_fail_fast (ui : Ui) :
    (ui.layouts = [] → ui.endRoot = none)
  ∧ (∀ pos kind, ui.layouts ≠ [] → ui.begin pos kind = none)
  ∧ (ui.layouts = [] → ui.end_layout = none)
  ∧ (∀ top, ui.layouts = [top] → ui.end_layout = none) := by
  refine ⟨?_, ?_, ?_, ?_⟩
  · intro h; unfold Ui.endRoot; rw [h]
  · intro pos kind h; unfold Ui.begin
    rw [if_neg (by simpa using h)]
  · intro h; unfold Ui.end_layout; rw [h]
  · intro top h; unfold Ui.end_layout; rw [h]

/-- Witness for C9 at concrete sessions: an empty stack rejects
`end()`/`end_layout()`, a one-frame stack rejects `begin()` and
`end_layout()`. -/
theorem layout_contract_fail_fast_witness :
    (Ui.mk [] (VirtualScreen.new 1 1)).endRoot = none
  ∧ (Ui.mk [Layout.mk LayoutKind.vert Vec2.null Vec2.null]
      (VirtualScreen.new 1 1)).begin Vec2.null LayoutKind.vert = none
  ∧ (Ui.mk [] (VirtualScreen.new 1 1)).end_layout = none
  ∧ (Ui.mk [Layout.mk LayoutKind.vert Vec2.null Vec2.null]
      (VirtualScreen.new 1 1)).end_layout = none :=
  ⟨(layout_contract_fail_fast _).1 rfl,
   (layout_contract_fail_fast _).2.1 Vec2.null LayoutKind.vert (by decide),
   (layout_contract_fail_fast _).2.2.1 rfl,
   (layout_contract_fail_fast _).2.2.2 (Layout.mk LayoutKind.vert Vec2.null Vec2.null) rfl⟩

/-- C6 is a code bug: the claim (and the emitter's correctness) require
an explicit cursor move for the first emitted patch, since nothing has
been emitted yet and the physical cursor position is unknown. But
`apply_patches` initialises its trackers to `x_prev = 0, y_prev = 0`,
so a first patch at `(1, 0)` passes the adjacency test `y_prev == y &&
x_prev + 1 == x` and is printed with no `MoveTo` at all: the glyph
lands wherever the cursor happens to be. This theorem evaluates the
emitter at that failing input: the command list contains no `MoveTo`. -/
theorem apply_patches_first_patch_move_elided :
    apply_patches [Patch.mk (Cell.mk 'X' Color.white Color.black) 1 0] =
      [Command.setForeground Color.white, Command.setBackground Color.black,
       Command.print 'X'] := by decide

/-- Flat characterization of the `put_cells` loop: index `j` receives
the character at offset `j - start` when `start ≤ j`, the offset is
within the text, and `j` is inside the vector; every other index is
untouched. The `break` never drops an in-range character because the
written indices increase one by one. -/
theorem putCellsGo_getElem? (fg bg : Color) :
    ∀ (text : List Char) (cells : List Cell) (start j : Nat),
    (putCellsGo fg bg cells start text)[j]? =
      if start ≤ j ∧ j - start < text.length ∧ j < cells.length then
        (text[j - start]?).map (fun ch => Cell.mk ch fg bg)
      else cells[j]? := by
  intro text
  induction text with
  | nil =>
    intro cells start j
    simp [putCellsGo]
  | cons ch rest ih =>
    intro cells start j
    by_cases hs : start < cells.length
    · have h1 : putCellsGo fg bg cells start (ch :: rest)
          = putCellsGo fg bg (cells.set start (Cell.mk ch fg bg)) (start + 1) rest := by
        simp only [putCellsGo, if_pos hs]
      rw [h1, ih, List.length_set]
      by_cases hj : j = start
      · subst hj
        rw [if_neg (by omega)]
        rw [if_pos ⟨Nat.le_refl _, by simp, hs⟩]
        rw [Nat.sub_self, List.getElem?_set_self hs]
        simp
      · by_cases hcond : start + 1 ≤ j ∧ j - (start + 1) < rest.length ∧ j < cells.length
        · rw [if_pos hcond]
          rw [if_pos ⟨by omega, by simp only [List.length_cons]; omega, hcond.2.2⟩]
          have h2 : j - start = (j - (start + 1)) + 1 := by omega
          rw [h2, List.getElem?_cons_succ]
        · rw [if_neg hcond]
          rw [List.getElem?_set_ne (fun h => hj h.symm)]
          rw [if_neg (by simp only [List.length_cons]; omega)]
    · have h1 : putCellsGo fg bg cells start (ch :: rest) = cells := by
        simp only [putCellsGo, if_neg hs]
      rw [h1, if_neg (by omega)]

/-- C2 corrected: `put_cells(x, y, text, fg, bg)` writes `text`'s
characters at consecutive FLAT indices starting at `y*width + x`: a
character is dropped exactly when its flat index reaches the end of the
cell vector, not when its column reaches the grid's right edge — a
character past the right edge of a non-final row wraps onto the next
row. The dimensions are unchanged, and every flat index outside the
written range keeps its old cell. -/
theorem put_cells_flat_extent (b : Buffer) (x y : Nat) (chs : List Char) (fg bg : Color) :
    (b.put_cells x y chs fg bg).width = b.width
  ∧ (b.put_cells x y chs fg bg).height = b.height
  ∧ ∀ j, (b.put_cells x y chs fg bg).cells[j]? =
      if y * b.width + x ≤ j ∧ j - (y * b.width + x) < chs.length ∧ j < b.cells.length then
        (chs[j - (y * b.width + x)]?).map (fun ch => Cell.mk ch fg bg)
      else b.cells[j]? :=
  ⟨rfl, rfl, fun j => putCellsGo_getElem? fg bg chs b.cells (y * b.width + x) j⟩

/-- Counterexample to C2 as stated: on a `2 × 2` grid,
`put_cells(0, 0, "ABC", …)` must — per the claim — drop `'C'` (its
column `2` is `≥ width 2`) and leave cell `(0, 1)` (flat index `2`)
untouched. The code instead wraps `'C'` onto the next row: flat index
`2` now holds `'C'`. -/
theorem put_cells_wraps_counterexample :
    ((Buffer.new 2 2).put_cells 0 0 ['A', 'B', 'C'] Color.white Color.black).cells[2]? =
      some (Cell.mk 'C' Color.white Color.black)
  ∧ (Buffer.new 2 2).cells[2]? = some Cell.default
  ∧ Cell.mk 'C' Color.white Color.black ≠ Cell.default := by decide

/-- C3 corrected: `put_cell(x, y, …)` writes the FLAT index
`y*width + x` whenever that index is inside the cell vector, and is a
no-op only when the flat index is past the vector's end. For in-bounds
`(x, y)` (`x < width`, `y < height`) the flat index is in range and
equals the row-major position of `(x, y)`, so exactly that cell is
overwritten and all others are unchanged — but an `x ≥ width` with
in-range flat index wraps to a later row instead of being ignored. -/
theorem put_cell_flat_behavior (b : Buffer) (x y : Nat) (ch : Char) (fg bg : Color)
    (hwf : b.wf) :
    ((b.put_cell x y ch fg bg).width = b.width ∧ (b.put_cell x y ch fg bg).height = b.height)
  ∧ (∀ j, (b.put_cell x y ch fg bg).cells[j]? =
        if y * b.width + x = j ∧ j < b.cells.length then some (Cell.mk ch fg bg)
        else b.cells[j]?)
  ∧ (x < b.width → y < b.height → y * b.width + x < b.cells.length)
  ∧ (b.width * b.height ≤ y * b.width + x → b.put_cell x y ch fg bg = b) := by
  refine ⟨⟨rfl, rfl⟩, ?_, ?_, ?_⟩
  · intro j
    show (b.cells.set (y * b.width + x) (Cell.mk ch fg bg))[j]? = _
    rw [List.getElem?_set]
    by_cases he : y * b.width + x = j
    · subst he
      by_cases hl : y * b.width + x < b.cells.length
      · rw [if_pos rfl, if_pos hl, if_pos ⟨rfl, hl⟩]
      · rw [if_pos rfl, if_neg hl, if_neg (by omega)]
        rw [List.getElem?_eq_none (by omega)]
    · rw [if_neg he, if_neg (by omega)]
  · intro hx hy
    rw [hwf]
    calc y * b.width + x < y * b.width + b.width := by omega
      _ = (y + 1) * b.width := by ring
      _ ≤ b.height * b.width := Nat.mul_le_mul_right _ (by omega)
      _ = b.width * b.height := Nat.mul_comm _ _
  · intro hge
    show { b with cells := b.cells.set (y * b.width + x) (Cell.mk ch fg bg) } = b
    rw [List.set_eq_of_length_le (by rw [hwf]; exact hge)]

/-- Witness for C3's corrected theorem on a concrete `3 × 2` grid,
instantiating the flat-index characterization at `(x, y) = (1, 1)` and
flat index `4`. -/
theorem put_cell_flat_behavior_witness :
    (Buffer.new 3 2).wf ∧
    ((Buffer.new 3 2).put_cell 1 1 'Q' Color.red Color.black).cells[4]? =
      (if 1 * (Buffer.new 3 2).width + 1 = 4 ∧ 4 < (Buffer.new 3 2).cells.length then
        some (Cell.mk 'Q' Color.red Color.black)
      else (Buffer.new 3 2).cells[4]?) :=
  ⟨by decide,
   (put_cell_flat_behavior (Buffer.new 3 2) 1 1 'Q' Color.red Color.black (by decide)).2.1 4⟩

/-- Counterexample to C3 as stated: on a `2 × 2` grid, `(x, y) = (2, 0)`
is out of bounds (`x ≥ width`), so the claim requires a no-op; the code
writes flat index `0 * 2 + 2 = 2`, i.e. cell `(0, 1)`, and the grid
changes. -/
theorem put_cell_out_of_bounds_writes_counterexample :
    (Buffer.new 2 2).put_cell 2 0 'Z' Color.white Color.black ≠ Buffer.new 2 2
  ∧ ((Buffer.new 2 2).put_cell 2 0 'Z' Color.white Color.black).cells[2]? =
      some (Cell.mk 'Z' Color.white Color.black) := by decide

/-- Bridge from the iterator chain of `Buffer.diff` (zip, enumerate,
filter, map) to the reference recursion `diffIdx`. -/
theorem diff_chain_eq_diffIdx (w : Nat) :
    ∀ (as bs : List Cell) (n : Nat),
    (((as.zip bs).enumFrom n).filter (fun p => p.2.1 ≠ p.2.2)).map
      (fun p => Patch.mk p.2.2 (p.1 % w) (p.1 / w))
    = diffIdx w n as bs := by
  intro as
  induction as with
  | nil => intro bs n; simp [diffIdx]
  | cons a as ih =>
    intro bs n
    cases bs with
    | nil => simp [diffIdx]
    | cons b bs =>
      simp only [List.zip_cons_cons, List.enumFrom_cons]
      by_cases hab : a = b
      · subst hab
        rw [List.filter_cons_of_neg (by simp)]
        rw [ih]
        simp [diffIdx]
      · rw [List.filter_cons_of_pos (by simp [hab])]
        simp only [List.map_cons]
        rw [ih]
        simp [diffIdx, hab]

/-- `Buffer.diff` computes `diffIdx` from flat index `0`. -/
theorem Buffer.diff_eq_diffIdx (A B : Buffer) :
    A.diff B = diffIdx A.width 0 A.cells B.cells :=
  diff_chain_eq_diffIdx A.width A.cells B.cells 0

/-- Membership in `diffIdx`: exactly the patches built from an offset
`k` at which both vectors hold a cell and the two cells differ, with
the target (second) cell and the coordinates decoded from the flat
index `n + k`. -/
theorem diffIdx_mem (w : Nat) (p : Patch) :
    ∀ (as bs : List Cell) (n : Nat),
    p ∈ diffIdx w n as bs ↔
      ∃ k a b, as[k]? = some a ∧ bs[k]? = some b ∧ a ≠ b ∧
        p = Patch.mk b ((n + k) % w) ((n + k) / w) := by
  intro as
  induction as with
  | nil =>
    intro bs n
    simp [diffIdx]
  | cons a as ih =>
    intro bs n
    cases bs with
    | nil => simp [diffIdx]
    | cons b bs =>
      by_cases hab : a = b
      · subst hab
        have h1 : diffIdx w n (a :: as) (a :: bs) = diffIdx w (n + 1) as bs := by
          simp [diffIdx]
        rw [h1, ih]
        constructor
        · rintro ⟨k, a', b', h1, h2, h3, h4⟩
          refine ⟨k + 1, a', b', by simpa using h1, by simpa using h2, h3, ?_⟩
          have h5 : n + (k + 1) = n + 1 + k := by omega
          rw [h5]; exact h4
        · rintro ⟨k, a', b', h1, h2, h3, h4⟩
          cases k with
          | zero =>
            rw [List.getElem?_cons_zero] at h1 h2
            exact absurd (by rw [← Option.some.inj h1, ← Option.some.inj h2] : a' = b') h3
          | succ k =>
            refine ⟨k, a', b', by simpa using h1, by simpa using h2, h3, ?_⟩
            have h5 : n + 1 + k = n + (k + 1) := by omega
            rw [h5]; exact h4
      · have h1 : diffIdx w n (a :: as) (b :: bs)
            = Patch.mk b (n % w) (n / w) :: diffIdx w (n + 1) as bs := by
          simp [diffIdx, hab]
        rw [h1, List.mem_cons, ih]
        constructor
        · rintro (h | ⟨k, a', b', h1, h2, h3, h4⟩)
          · exact ⟨0, a, b, List.getElem?_cons_zero, List.getElem?_cons_zero, hab,
              by simpa using h⟩
          · refine ⟨k + 1, a', b', by simpa using h1, by simpa using h2, h3, ?_⟩
            have h5 : n + (k + 1) = n + 1 + k := by omega
            rw [h5]; exact h4
        · rintro ⟨k, a', b', h1, h2, h3, h4⟩
          cases k with
          | zero =>
            left
            rw [List.getElem?_cons_zero] at h1 h2
            rw [← Option.some.inj h2] at h4
            simpa using h4
          | succ k =>
            right
            refine ⟨k, a', b', by simpa using h1, by simpa using h2, h3, ?_⟩
            have h5 : n + 1 + k = n + (k + 1) := by omega
            rw [h5]; exact h4

/-- Decoding two flat indices of a `w`-wide grid preserves order:
a smaller flat index yields a strictly earlier row, or the same row and
a strictly smaller column. -/
theorem flat_index_lt_rowmajor {w i j : Nat} (hw : 0 < w) (hij : i < j) :
    i / w < j / w ∨ (i / w = j / w ∧ i % w < j % w) := by
  rcases Nat.lt_or_ge (i / w) (j / w) with h | h
  · exact Or.inl h
  · have h3 : i / w ≤ j / w := Nat.div_le_div_right (Nat.le_of_lt hij)
    have he : i / w = j / w := Nat.le_antisymm h3 h
    refine Or.inr ⟨he, ?_⟩
    have hi := Nat.div_add_mod i w
    have hj := Nat.div_add_mod j w
    have hlt : w * (i / w) + i % w < w * (j / w) + j % w := by rw [hi, hj]; exact hij
    rw [he] at hlt
    exact Nat.lt_of_add_lt_add_left hlt

/-- `diffIdx` emits its patches in strictly increasing row-major order. -/
theorem diffIdx_pairwise (w : Nat) (hw : 0 < w) :
    ∀ (as bs : List Cell) (n : Nat), (diffIdx w n as bs).Pairwise rowMajorLt := by
  intro as
  induction as with
  | nil => intro bs n; simp [diffIdx]
  | cons a as ih =>
    intro bs n
    cases bs with
    | nil => simp [diffIdx]
    | cons b bs =>
      by_cases hab : a = b
      · subst hab
        have h1 : diffIdx w n (a :: as) (a :: bs) = diffIdx w (n + 1) as bs := by
          simp [diffIdx]
        rw [h1]
        exact ih bs (n + 1)
      · have h1 : diffIdx w n (a :: as) (b :: bs)
            = Patch.mk b (n % w) (n / w) :: diffIdx w (n + 1) as bs := by
          simp [diffIdx, hab]
        rw [h1]
        refine List.Pairwise.cons ?_ (ih bs (n + 1))
        intro q hq
        rw [diffIdx_mem] at hq
        obtain ⟨k, a', b', _, _, _, hq4⟩ := hq
        subst hq4
        have hlt := flat_index_lt_rowmajor hw (show n < n + 1 + k by omega)
        unfold rowMajorLt
        simpa using hlt

/-- C1: for grids of identical dimensions, `A.diff(B)` holds exactly one
patch for every flat index where the two cell vectors differ — the
patch carries the target cell (from `B`) and the coordinates
`(i % width, i / width)` — and the patches appear in strictly
increasing row-major scan order (ascending `y`, ascending `x` within a
row), so each differing coordinate appears exactly once. -/
theorem diff_row_major_exact (A B : Buffer) (hA : A.wf) (hB : B.wf)
    (hw : A.width = B.width) (hh : A.height = B.height) :
    (∀ p : Patch, p ∈ A.diff B ↔
       ∃ i a b, A.cells[i]? = some a ∧ B.cells[i]? = some b ∧ a ≠ b ∧
         p = Patch.mk b (i % A.width) (i / A.width))
  ∧ (A.diff B).Pairwise rowMajorLt := by
  constructor
  · intro p
    rw [Buffer.diff_eq_diffIdx, diffIdx_mem]
    constructor
    · rintro ⟨k, a, b, h1, h2, h3, h4⟩
      exact ⟨k, a, b, h1, h2, h3, by simpa using h4⟩
    · rintro ⟨i, a, b, h1, h2, h3, h4⟩
      exact ⟨i, a, b, h1, h2, h3, by simpa using h4⟩
  · rw [Buffer.diff_eq_diffIdx]
    by_cases hW : A.width = 0
    · have hlen : A.cells.length = 0 := by rw [hA, hW]; simp
      rw [List.length_eq_zero.mp hlen]
      simp [diffIdx]
    · exact diffIdx_pairwise A.width (Nat.pos_of_ne_zero hW) A.cells B.cells 0

/-- Witness for C1 on concrete `2 × 1` grids differing in one cell. -/
theorem diff_row_major_exact_witness :
    ((Buffer.new 2 1).wf ∧ ((Buffer.new 2 1).put_cell 1 0 'Q' Color.red Color.black).wf)
  ∧ ((Buffer.new 2 1).diff
      ((Buffer.new 2 1).put_cell 1 0 'Q' Color.red Color.black)).Pairwise rowMajorLt :=
  ⟨⟨by decide, by decide⟩,
   (diff_row_major_exact (Buffer.new 2 1)
      ((Buffer.new 2 1).put_cell 1 0 'Q' Color.red Color.black)
      (by decide) (by decide) rfl rfl).2⟩

/-- C10: every patch produced by `diff` on well-formed, equally-sized
grids has in-bounds coordinates: `x < width` and `y < height`. -/
theorem diff_patches_in_bounds (A B : Buffer) (hA : A.wf) (hB : B.wf)
    (hw : A.width = B.width) (hh : A.height = B.height) :
    ∀ p ∈ A.diff B, p.x < A.width ∧ p.y < A.height := by
  intro p hp
  rw [Buffer.diff_eq_diffIdx, diffIdx_mem] at hp
  obtain ⟨k, a, b, h1, h2, h3, h4⟩ := hp
  have hk : k < A.cells.length := by
    rcases List.getElem?_eq_some_iff.mp h1 with ⟨h, _⟩
    exact h
  rw [hA] at hk
  have hwpos : 0 < A.width := by
    rcases Nat.eq_zero_or_pos A.width with h0 | h0
    · rw [h0] at hk; simp at hk
    · exact h0
  subst h4
  refine ⟨by simpa using Nat.mod_lt _ hwpos, ?_⟩
  show (0 + k) / A.width < A.height
  rw [Nat.zero_add]
  exact Nat.div_lt_of_lt_mul hk

/-- Witness for C10 on concrete `3 × 2` grids. -/
theorem diff_patches_in_bounds_witness :
    (Buffer.new 3 2).wf ∧
    ∀ p ∈ (Buffer.new 3 2).diff ((Buffer.new 3 2).put_cell 2 1 'R' Color.cyan Color.black),
      p.x < (Buffer.new 3 2).width ∧ p.y < (Buffer.new 3 2).height :=
  ⟨by decide,
   diff_patches_in_bounds (Buffer.new 3 2)
     ((Buffer.new 3 2).put_cell 2 1 'R' Color.cyan Color.black)
     (by decide) (by decide) rfl rfl⟩

/-- Emptiness of `diffIdx` is symmetric in its two cell vectors
(a cell pair differs in one direction exactly when it differs in the
other). -/
theorem diffIdx_eq_nil_symm (w w' : Nat) :
    ∀ (as bs : List Cell) (n m : Nat),
      (diffIdx w n as bs = [] ↔ diffIdx w' m bs as = []) := by
  intro as
  induction as with
  | nil => intro bs n m; cases bs <;> simp [diffIdx]
  | cons a as ih =>
    intro bs n m
    cases bs with
    | nil => simp [diffIdx]
    | cons b bs =>
      by_cases hab : a = b
      · subst hab
        have h1 : diffIdx w n (a :: as) (a :: bs) = diffIdx w (n + 1) as bs := by
          simp [diffIdx]
        have h2 : diffIdx w' m (a :: bs) (a :: as) = diffIdx w' (m + 1) bs as := by
          simp [diffIdx]
        rw [h1, h2]
        exact ih bs (n + 1) (m + 1)
      · have h1 : diffIdx w n (a :: as) (b :: bs)
            = Patch.mk b (n % w) (n / w) :: diffIdx w (n + 1) as bs := by
          simp [diffIdx, hab]
        have h2 : diffIdx w' m (b :: bs) (a :: as)
            = Patch.mk a (m % w') (m / w') :: diffIdx w' (m + 1) bs as := by
          simp [diffIdx, Ne.symm hab]
        rw [h1, h2]
        simp

/-- C5 corrected: after `swap()`, a zero-mutation frame's `diff()` is
empty exactly when `diff()` was already empty before the swap — i.e.
the steady state (the two grids agree) produces no patches, but a swap
after an un-rendered mutation does not: the stale difference reappears
(reversed) in the next diff. -/
theorem swap_diff_empty_iff (s : VirtualScreen) :
    s.swap.diff = [] ↔ s.diff = [] := by
  show s.buf_curr.diff s.buf_prev = [] ↔ s.buf_prev.diff s.buf_curr = []
  rw [Buffer.diff_eq_diffIdx, Buffer.diff_eq_diffIdx]
  exact diffIdx_eq_nil_symm _ _ _ _ 0 0

/-- Counterexample to C5 as stated: write one cell of a fresh `1 × 1`
screen, `swap()`, then perform a zero-mutation frame: `diff()` is not
empty (the swap moved the never-rendered `'A'` into `previous`, and the
current grid is the stale default cell). -/
theorem swap_then_zero_mutation_diff_nonempty_counterexample :
    ((VirtualScreen.new 1 1).put_cell 0 0 'A' Color.white Color.black).swap.diff ≠ [] := by
  decide

/-- The `put_cells` loop never changes the length of the cell vector. -/
theorem putCellsGo_length (fg bg : Color) :
    ∀ (text : List Char) (cells : List Cell) (start : Nat),
    (putCellsGo fg bg cells start text).length = cells.length := by
  intro text
  induction text with
  | nil => intro cells start; rfl
  | cons ch rest ih =>
    intro cells start
    by_cases hs : start < cells.length
    · have h1 : putCellsGo fg bg cells start (ch :: rest)
          = putCellsGo fg bg (cells.set start (Cell.mk ch fg bg)) (start + 1) rest := by
        simp only [putCellsGo, if_pos hs]
      rw [h1, ih, List.length_set]
    · have h1 : putCellsGo fg bg cells start (ch :: rest) = cells := by
        simp only [putCellsGo, if_neg hs]
      rw [h1]

/-- C7 corrected: `label_fixed_width(text, width, fg, bg)` writes `text`
at the top frame's `available_position` via a multi-cell write, and
then — instead of padding the remaining cells up to the declared width
— writes `|size.x − width − 4|` blank cells with the same colors
STARTING at the column just past the declared width (`pos.x + width`),
where `size.x` is the top frame's accumulated width *before* the call;
finally it calls `add_widget(Vec2(width, 1))` and returns `pos`. The
last conjunct gives the resulting current grid cell by cell (the blank
fill is applied second, so it wins where the two writes overlap). -/
theorem label_fixed_width_fill_after_width (ui : Ui) (top : Layout) (rest : List Layout)
    (h : ui.layouts = top :: rest) (text : List Char) (width : Int) (fg bg : Color) :
    ∃ ui2, ui.label_fixed_width text width fg bg = some (ui2, top.available_pos)
  ∧ ui2.layouts = top.add_widget (Vec2.new width 1) :: rest
  ∧ ui2.screen.buf_prev = ui.screen.buf_prev
  ∧ ui2.screen.buf_curr.width = ui.screen.buf_curr.width
  ∧ ui2.screen.buf_curr.height = ui.screen.buf_curr.height
  ∧ ∀ j, ui2.screen.buf_curr.cells[j]? =
      (if usizeOfI32 top.available_pos.y * ui.screen.buf_curr.width
            + usizeOfI32 (top.available_pos.x + width) ≤ j
          ∧ j - (usizeOfI32 top.available_pos.y * ui.screen.buf_curr.width
            + usizeOfI32 (top.available_pos.x + width)) < (top.size.x - width - 4).natAbs
          ∧ j < ui.screen.buf_curr.cells.length then
        some (Cell.mk ' ' fg bg)
      else if usizeOfI32 top.available_pos.y * ui.screen.buf_curr.width
            + usizeOfI32 top.available_pos.x ≤ j
          ∧ j - (usizeOfI32 top.available_pos.y * ui.screen.buf_curr.width
            + usizeOfI32 top.available_pos.x) < text.length
          ∧ j < ui.screen.buf_curr.cells.length then
        (text[j - (usizeOfI32 top.available_pos.y * ui.screen.buf_curr.width
            + usizeOfI32 top.available_pos.x)]?).map (fun ch => Cell.mk ch fg bg)
      else ui.screen.buf_curr.cells[j]?) := by
  refine ⟨{ layouts := top.add_widget (Vec2.new width 1) :: rest
            screen := (ui.screen.put_cells (usizeOfI32 top.available_pos.x)
                (usizeOfI32 top.available_pos.y) text fg bg).put_cells
              (usizeOfI32 (top.available_pos.x + width)) (usizeOfI32 top.available_pos.y)
              (List.replicate (top.size.x - width - 4).natAbs ' ') fg bg },
          ?_, rfl, rfl, rfl, rfl, ?_⟩
  · show Ui.label_fixed_width ui text width fg bg = _
    unfold Ui.label_fixed_width
    rw [h]
  · intro j
    show (putCellsGo fg bg
        (putCellsGo fg bg ui.screen.buf_curr.cells
          (usizeOfI32 top.available_pos.y * ui.screen.buf_curr.width
            + usizeOfI32 top.available_pos.x) text)
        (usizeOfI32 top.available_pos.y * ui.screen.buf_curr.width
          + usizeOfI32 (top.available_pos.x + width))
        (List.replicate (top.size.x - width - 4).natAbs ' '))[j]? = _
    rw [putCellsGo_getElem?, putCellsGo_getElem?, putCellsGo_length, List.length_replicate]
    by_cases hfill : usizeOfI32 top.available_pos.y * ui.screen.buf_curr.width
          + usizeOfI32 (top.available_pos.x + width) ≤ j
        ∧ j - (usizeOfI32 top.available_pos.y * ui.screen.buf_curr.width
          + usizeOfI32 (top.available_pos.x + width)) < (top.size.x - width - 4).natAbs
        ∧ j < ui.screen.buf_curr.cells.length
    · rw [if_pos hfill, if_pos hfill, List.getElem?_replicate, if_pos hfill.2.1]
      rfl
    · rw [if_neg hfill, if_neg hfill]

/-- Witness for C7's corrected theorem: a concrete vertical session on
an `8 × 1` screen with label text `"A"` and declared width `1`. -/
theorem label_fixed_width_fill_after_width_witness :
    ∃ ui2, (Ui.mk [Layout.mk LayoutKind.vert (Vec2.new 0 0) (Vec2.new 0 0)]
        (VirtualScreen.new 8 1)).label_fixed_width ['A'] 1 Color.red Color.black
      = some (ui2, Vec2.new 0 0) := by
  obtain ⟨ui2, h1, _⟩ :=
    label_fixed_width_fill_after_width
      (Ui.mk [Layout.mk LayoutKind.vert (Vec2.new 0 0) (Vec2.new 0 0)]
        (VirtualScreen.new 8 1))
      (Layout.mk LayoutKind.vert (Vec2.new 0 0) (Vec2.new 0 0)) [] rfl
      ['A'] 1 Color.red Color.black
  have h2 : (Layout.mk LayoutKind.vert (Vec2.new 0 0) (Vec2.new 0 0)).available_pos
      = Vec2.new 0 0 := by decide
  rw [h2] at h1
  exact ⟨ui2, h1⟩

/-- Counterexample to C7 as stated: in a fresh vertical frame (size
`(0,0)`) on an `8 × 1` screen, `label_fixed_width("A", 1, Red, Black)`
has its text fill the full declared width, so per the claim no cell
past column `pos.x + width - 1 = 0` may change. The code instead
writes `|0 - 1 - 4| = 5` blank red-on-black cells starting at column
`1`: cell `(1, 0)` — default before — now carries the label's colors. -/
theorem label_fixed_width_pads_beyond_declared_width_counterexample :
    ((Ui.mk [Layout.mk LayoutKind.vert (Vec2.new 0 0) (Vec2.new 0 0)]
        (VirtualScreen.new 8 1)).label_fixed_width ['A'] 1 Color.red Color.black).map
      (fun r => r.1.screen.buf_curr.cells[1]?)
    = some (some (Cell.mk ' ' Color.red Color.black))
  ∧ (VirtualScreen.new 8 1).buf_curr.cells[1]? = some Cell.default
  ∧ Cell.mk ' ' Color.red Color.black ≠ Cell.default := by decide

/-- A text all of whose characters are single-byte in UTF-8 has its byte
length (`str::len`) equal to its character count. -/
theorem utf8Len_eq_length_of_ascii :
    ∀ (text : List Char), (∀ c ∈ text, c.utf8Size = 1) → utf8Len text = text.length := by
  intro text
  induction text with
  | nil => intro _; rfl
  | cons c t ih =>
    intro h
    have hc : c.utf8Size = 1 := h c (List.mem_cons_self c t)
    have ht := ih (fun x hx => h x (List.mem_cons_of_mem c hx))
    show (List.map Char.utf8Size (c :: t)).sum = (c :: t).length
    rw [List.map_cons, List.sum_cons, hc, List.length_cons]
    unfold utf8Len at ht
    omega

/-- C8 corrected: `label(text, fg, bg)` is `label_fixed_width` with the
width defaulted to `text.len() as i32` — the UTF-8 BYTE length of the
text, not its displayed character count. The two agree exactly for
texts whose characters are all single-byte (ASCII), in which case the
claim's statement holds. -/
theorem label_defaults_to_byte_length (ui : Ui) (text : List Char) (fg bg : Color) :
    ui.label text fg bg
      = (ui.label_fixed_width text ((utf8Len text : Nat) : Int) fg bg).map (fun p => p.1)
  ∧ ((∀ c ∈ text, c.utf8Size = 1) →
      ui.label text fg bg
        = (ui.label_fixed_width text ((text.length : Nat) : Int) fg bg).map (fun p => p.1)) := by
  refine ⟨rfl, ?_⟩
  intro hascii
  show (ui.label_fixed_width text ((utf8Len text : Nat) : Int) fg bg).map (fun p => p.1) = _
  rw [utf8Len_eq_length_of_ascii text hascii]

/-- Witness for C8's corrected theorem on the all-ASCII text `"AB"`. -/
theorem label_defaults_to_byte_length_witness :
    (∀ c ∈ [('A' : Char), 'B'], c.utf8Size = 1) ∧
    (Ui.mk [Layout.mk LayoutKind.vert Vec2.null Vec2.null] (VirtualScreen.new 4 1)).label
        ['A', 'B'] Color.white Color.black
      = ((Ui.mk [Layout.mk LayoutKind.vert Vec2.null Vec2.null]
            (VirtualScreen.new 4 1)).label_fixed_width
          ['A', 'B'] (((['A', 'B'] : List Char).length : Nat) : Int)
          Color.white Color.black).map (fun p => p.1) :=
  ⟨by decide,
   (label_defaults_to_byte_length
      (Ui.mk [Layout.mk LayoutKind.vert Vec2.null Vec2.null] (VirtualScreen.new 4 1))
      ['A', 'B'] Color.white Color.black).2 (by decide)⟩

/-- Counterexample to C8 as stated: for the one-character text `"é"`
(one displayed character, two UTF-8 bytes), `label` grows the layout by
`Vec2(2, 1)` — the byte length — while the claim requires the
grapheme-count behavior `label_fixed_width(text, 1, …)`, which grows it
by `Vec2(1, 1)`. -/
theorem label_uses_byte_length_counterexample :
    ((Ui.mk [Layout.mk LayoutKind.vert Vec2.null Vec2.null] (VirtualScreen.new 4 1)).label
        ['é'] Color.white Color.black).map (fun u => u.layouts.map Layout.size)
      = some [Vec2.new 2 1]
  ∧ (((Ui.mk [Layout.mk LayoutKind.vert Vec2.null Vec2.null]
        (VirtualScreen.new 4 1)).label_fixed_width
          ['é'] ((([('é' : Char)] : List Char).length : Nat) : Int)
          Color.white Color.black).map (fun p => p.1.layouts.map Layout.size))
      = some [Vec2.new 1 1]
  ∧ Vec2.new 2 1 ≠ Vec2.new 1 1 := by decide
